import Mathlib

/-!
Verification of the request-lifecycle / cancellation pattern of the
`RandomJoke` React component (final version, `src/RandomJoke.js`),
mounted by `App` (`src/App.js`) with initial prop `more = false`.

The component is embedded as an explicit state machine over a single-threaded
event loop.  The component state carries:

* `joke` — the `useState("")` string state;
* `componentIsMounted` — the `useRef(true)` liveness ref, set to `false` by
  the cleanup of the empty-deps effect on unmount;
* `mounted` — whether the component instance is still mounted (drives which
  events are possible);
* `more` — the trigger prop owned by `App` (`loadMore` flips it);
* `gen` — the number of runs of the `[more]` effect so far minus one: each
  run creates one `CancelToken.source()` and issues exactly one `axios` GET
  attached to it, so generation `g` indexes both the token and its request;
* `reqs` — the status of every request issued so far, indexed by generation;
* `log` — the console log (levels only: `console.info` / `console.error`).

Events are the event-loop turns that can touch this state: a trigger advance
(`loadMore` click, which re-runs the `[more]` effect: cleanup cancels the
previous token source, then a fresh source is created and `fetchJoke` issues
a new request), an unmount (both effect cleanups run: the liveness ref is
cleared and the current token source is cancelled), and the settlement of an
individual request: fulfilment with a parsed JSON body, rejection with a
transport error, or rejection with the axios `Cancel` value (the only way a
request whose token was cancelled can settle).
-/

set_option autoImplicit false

namespace RandomJoke

/-- Status of one axios request (one per `CancelToken.source()` generation):
still in flight, in flight but with its token cancelled (it will settle with
an `axios.isCancel` rejection), or settled. -/
inductive ReqStatus where
  | pending
  | cancelled
  | settled
deriving Repr, DecidableEq

/-- The nested object of the joke API response body: `data.value`. -/
structure JokeVal where
  joke : String
deriving Repr, DecidableEq

/-- The parsed JSON body `asyncResponse.data`.  `value` is `none` when the
body lacks the `value` field (so `data.value` is `undefined` in JS). -/
structure ResponseData where
  value : Option JokeVal
deriving Repr, DecidableEq

/-- A console log entry, by level: `console.info` or `console.error`. -/
inductive LogEntry where
  | info
  | error
deriving Repr, DecidableEq

/-- JavaScript runtime errors thrown inside the `try` block other than the
rejections of the awaited promise; reading `value.joke` when `value` is
`undefined` throws a `TypeError`. -/
inductive JsError where
  | typeError
deriving Repr, DecidableEq

/-- The full state of one `RandomJoke` component instance (plus the `more`
trigger owned by `App` and the console log). -/
structure Component where
  joke : String
  componentIsMounted : Bool
  mounted : Bool
  more : Bool
  gen : Nat
  reqs : List ReqStatus
  log : List LogEntry
deriving Repr, DecidableEq

/-- Event-loop turns that can touch the component state. -/
inductive Event where
  | advance
  | unmount
  | settleSuccess (g : Nat) (d : ResponseData)
  | settleNetworkError (g : Nat)
  | settleCancel (g : Nat)
deriving Repr, DecidableEq

/-- `cancelTokenSource.cancel(...)` on the source of generation `g`: a
request still in flight will now settle with a `Cancel` rejection; a request
that already settled is unaffected. -/
def cancelAt (rs : List ReqStatus) (g : Nat) : List ReqStatus :=
  match rs[g]? with
  | some .pending => rs.set g .cancelled
  | _ => rs

/-- The body of the `try` block after the awaited promise fulfilled with
body `d`: `const \x7b value \x7d = asyncResponse.data;` followed by
`if (componentIsMounted.current) \x7b setJoke(value.joke); \x7d`.
Returns the argument passed to `setJoke` (or `none` when `setJoke` is not
called), or the `TypeError` thrown by reading `value.joke` off `undefined`. -/
def tryBody (componentIsMounted : Bool) (d : ResponseData) :
    Except JsError (Option String) :=
  let value := d.value
  if componentIsMounted then
    match value with
    | some v => .ok (some v.joke)
    | none => .error .typeError
  else
    .ok none

/-- Effect of `fetchJoke`'s continuation when the awaited request fulfils
with body `d`: run the rest of the `try` block; a thrown `TypeError` is
absorbed by the `catch` block, where `axios.isCancel(err)` is false, so it
is logged with `console.error`. -/
def onFulfilled (s : Component) (d : ResponseData) : Component :=
  match tryBody s.componentIsMounted d with
  | .ok (some j) => { s with joke := j }
  | .ok none => s
  | .error _ => { s with log := s.log ++ [.error] }

/-- Mark the request of generation `g` as settled. -/
def setSettled (s : Component) (g : Nat) : Component :=
  { s with reqs := s.reqs.set g .settled }

/-- One event-loop turn.  `none` means the event cannot occur in state `s`
(e.g. clicking `More...` after unmount, or a fulfilment of a request whose
token was already cancelled). -/
def step (s : Component) (e : Event) : Option Component :=
  match e with
  | .advance =>
      if s.mounted then
        some { s with
          more := !s.more,
          reqs := cancelAt s.reqs s.gen ++ [.pending],
          gen := s.gen + 1 }
      else none
  | .unmount =>
      if s.mounted then
        some { s with
          componentIsMounted := false,
          reqs := cancelAt s.reqs s.gen,
          mounted := false }
      else none
  | .settleSuccess g d =>
      if s.reqs[g]? = some .pending then
        some (setSettled (onFulfilled s d) g)
      else none
  | .settleNetworkError g =>
      if s.reqs[g]? = some .pending then
        some (setSettled { s with log := s.log ++ [.error] } g)
      else none
  | .settleCancel g =>
      if s.reqs[g]? = some .cancelled then
        some (setSettled { s with log := s.log ++ [.info] } g)
      else none

/-- State right after `App` mounts `RandomJoke` with `more = false`:
`joke` is `""`, the liveness ref is `true`, and the `[more]` effect has run
once (generation 0: one token source created, one request in flight). -/
def initState : Component :=
  { joke := ""
    componentIsMounted := true
    mounted := true
    more := false
    gen := 0
    reqs := [.pending]
    log := [] }

/-- Run a list of events from a given state; `none` if some event is not
possible when its turn comes. -/
def runFrom (s : Component) : List Event → Option Component
  | [] => some s
  | e :: t =>
      match step s e with
      | some s' => runFrom s' t
      | none => none

/-- Run a list of events from the freshly mounted component. -/
def run (t : List Event) : Option Component :=
  runFrom initState t

/-- The string rendered inside the `<h2>` element:
the joke wrapped in literal double quotes. -/
def renderJokeLine (joke : String) : String :=
  "\"" ++ joke ++ "\""

/-- Reachability invariant of the component state machine:
the liveness ref mirrors mountedness, one request exists per effect
generation, every superseded request is no longer pending, and after
unmount nothing is pending. -/
def Inv (s : Component) : Prop :=
  s.componentIsMounted = s.mounted ∧
  s.reqs.length = s.gen + 1 ∧
  (∀ g, g < s.gen → s.reqs[g]? ≠ some ReqStatus.pending) ∧
  (s.mounted = false → ∀ g : Nat, s.reqs[g]? ≠ some ReqStatus.pending)

theorem length_cancelAt (rs : List ReqStatus) (g : Nat) :
    (cancelAt rs g).length = rs.length := by
  cases h : rs[g]? with
  | none => simp [cancelAt, h]
  | some st => cases st <;> simp [cancelAt, h]

theorem cancelAt_getElem?_self (rs : List ReqStatus) (g : Nat) :
    (cancelAt rs g)[g]? ≠ some .pending := by
  cases h : rs[g]? with
  | none => simp [cancelAt, h]
  | some st =>
    cases st with
    | pending =>
      have hlt : g < rs.length := (List.getElem?_eq_some.mp h).1
      simp [cancelAt, h, List.getElem?_set_self hlt]
    | cancelled => simp [cancelAt, h]
    | settled => simp [cancelAt, h]

theorem cancelAt_getElem?_ne (rs : List ReqStatus) (g g' : Nat) (hne : g' ≠ g) :
    (cancelAt rs g)[g']? = rs[g']? := by
  cases h : rs[g]? with
  | none => simp [cancelAt, h]
  | some st =>
    cases st with
    | pending =>
      simp only [cancelAt, h]
      exact List.getElem?_set_ne (fun hgg => hne hgg.symm)
    | cancelled => simp [cancelAt, h]
    | settled => simp [cancelAt, h]

theorem cancelAt_not_pending (rs : List ReqStatus) (g g' : Nat)
    (h : rs[g']? ≠ some .pending) :
    (cancelAt rs g)[g']? ≠ some .pending := by
  by_cases hgg : g' = g
  · subst hgg; exact cancelAt_getElem?_self rs g'
  · rw [cancelAt_getElem?_ne rs g g' hgg]; exact h

theorem set_settled_not_pending (rs : List ReqStatus) (g g' : Nat)
    (h : rs[g']? ≠ some .pending) :
    (rs.set g .settled)[g']? ≠ some .pending := by
  by_cases hgg : g = g'
  · subst hgg
    by_cases hlt : g < rs.length
    · rw [List.getElem?_set_self hlt]; simp
    · rw [List.getElem?_len_le (by simpa using Nat.le_of_not_lt hlt)]
      simp
  · rw [List.getElem?_set_ne hgg]; exact h

theorem onFulfilled_componentIsMounted (s : Component) (d : ResponseData) :
    (onFulfilled s d).componentIsMounted = s.componentIsMounted := by
  unfold onFulfilled
  cases tryBody s.componentIsMounted d with
  | ok o => cases o <;> rfl
  | error e => rfl

theorem onFulfilled_mounted (s : Component) (d : ResponseData) :
    (onFulfilled s d).mounted = s.mounted := by
  unfold onFulfilled
  cases tryBody s.componentIsMounted d with
  | ok o => cases o <;> rfl
  | error e => rfl

theorem onFulfilled_reqs (s : Component) (d : ResponseData) :
    (onFulfilled s d).reqs = s.reqs := by
  unfold onFulfilled
  cases tryBody s.componentIsMounted d with
  | ok o => cases o <;> rfl
  | error e => rfl

theorem onFulfilled_gen (s : Component) (d : ResponseData) :
    (onFulfilled s d).gen = s.gen := by
  unfold onFulfilled
  cases tryBody s.componentIsMounted d with
  | ok o => cases o <;> rfl
  | error e => rfl

/-- A request index holding a pending request is the current generation
(given the invariant). -/
theorem pending_eq_gen {s : Component} (hs : Inv s) {g : Nat}
    (h : s.reqs[g]? = some .pending) : g = s.gen := by
  obtain ⟨_, hlen, hsup, _⟩ := hs
  rcases Nat.lt_trichotomy g s.gen with hlt | heq | hgt
  · exact absurd h (hsup g hlt)
  · exact heq
  · exfalso
    have hnone : s.reqs[g]? = none := List.getElem?_len_le (by omega)
    rw [hnone] at h
    exact Option.noConfusion h

/-- A pending request implies the component is still mounted (given the
invariant): the unmount cleanup cancels the one possibly-pending request. -/
theorem pending_mounted {s : Component} (hs : Inv s) {g : Nat}
    (h : s.reqs[g]? = some .pending) : s.mounted = true := by
  obtain ⟨_, _, _, hum⟩ := hs
  cases hm : s.mounted with
  | true => rfl
  | false => exact absurd h (hum hm g)

/-- A pending request implies the liveness ref is still true (given the
invariant). -/
theorem pending_componentIsMounted {s : Component} (hs : Inv s) {g : Nat}
    (h : s.reqs[g]? = some .pending) : s.componentIsMounted = true :=
  hs.1.trans (pending_mounted hs h)

theorem inv_initState : Inv initState := by
  refine ⟨rfl, rfl, ?_, ?_⟩
  · intro g hg
    exact absurd hg (Nat.not_lt_zero g)
  · intro hm
    exact absurd hm (by simp [initState])

theorem inv_step {s s' : Component} {e : Event}
    (hs : Inv s) (h : step s e = some s') : Inv s' := by
  obtain ⟨hcm, hlen, hsup, hum⟩ := hs
  cases e with
  | advance =>
    by_cases hm : s.mounted = true
    · simp only [step, hm, if_true, Option.some.injEq] at h
      subst h
      refine ⟨hcm.trans hm, ?_, ?_, ?_⟩
      · show (cancelAt s.reqs s.gen ++ [ReqStatus.pending]).length = s.gen + 1 + 1
        simp [List.length_append, length_cancelAt, hlen]
      · intro g hg
        have hg' : g < s.gen + 1 := hg
        show (cancelAt s.reqs s.gen ++ [ReqStatus.pending])[g]? ≠
          some ReqStatus.pending
        have hglen : g < (cancelAt s.reqs s.gen).length := by
          rw [length_cancelAt, hlen]
          exact hg'
        rw [List.getElem?_append_left hglen]
        by_cases hgg : g = s.gen
        · rw [hgg]; exact cancelAt_getElem?_self s.reqs s.gen
        · rw [cancelAt_getElem?_ne s.reqs s.gen g hgg]
          have hlt : g < s.gen := by
            rcases Nat.lt_succ_iff_lt_or_eq.mp hg' with h' | h'
            · exact h'
            · exact absurd h' hgg
          exact hsup g hlt
      · intro hmf
        simp at hmf
    · simp [step, hm] at h
  | unmount =>
    by_cases hm : s.mounted = true
    · simp only [step, hm, if_true, Option.some.injEq] at h
      subst h
      refine ⟨rfl, by simp [length_cancelAt, hlen], ?_, ?_⟩
      · intro g hg
        exact cancelAt_not_pending s.reqs s.gen g (hsup g hg)
      · intro _ g
        by_cases hgg : g = s.gen
        · rw [hgg]; exact cancelAt_getElem?_self s.reqs s.gen
        · rw [cancelAt_getElem?_ne s.reqs s.gen g hgg]
          intro hp
          exact hgg (pending_eq_gen ⟨hcm, hlen, hsup, hum⟩ hp)
    · simp [step, hm] at h
  | settleSuccess g d =>
    by_cases hp : s.reqs[g]? = some .pending
    · simp only [step, hp, if_true, Option.some.injEq] at h
      subst h
      refine ⟨?_, ?_, ?_, ?_⟩
      · simpa [setSettled, onFulfilled_componentIsMounted, onFulfilled_mounted]
          using hcm
      · simp [setSettled, onFulfilled_reqs, onFulfilled_gen, hlen]
      · intro g' hg'
        simp only [setSettled, onFulfilled_reqs, onFulfilled_gen] at hg' ⊢
        exact set_settled_not_pending s.reqs g g' (hsup g' hg')
      · intro hmf
        have hmt := pending_mounted ⟨hcm, hlen, hsup, hum⟩ hp
        simp only [setSettled, onFulfilled_mounted] at hmf
        rw [hmt] at hmf
        exact absurd hmf (by simp)
    · simp [step, hp] at h
  | settleNetworkError g =>
    by_cases hp : s.reqs[g]? = some .pending
    · simp only [step, hp, if_true, Option.some.injEq] at h
      subst h
      refine ⟨hcm, by simp [setSettled, hlen], ?_, ?_⟩
      · intro g' hg'
        exact set_settled_not_pending s.reqs g g' (hsup g' hg')
      · intro hmf
        have hmt := pending_mounted ⟨hcm, hlen, hsup, hum⟩ hp
        simp only [setSettled] at hmf
        rw [hmt] at hmf
        exact absurd hmf (by simp)
    · simp [step, hp] at h
  | settleCancel g =>
    by_cases hp : s.reqs[g]? = some .cancelled
    · simp only [step, hp, if_true, Option.some.injEq] at h
      subst h
      refine ⟨hcm, by simp [setSettled, hlen], ?_, ?_⟩
      · intro g' hg'
        exact set_settled_not_pending s.reqs g g' (hsup g' hg')
      · intro hmf g'
        exact set_settled_not_pending s.reqs g g' (hum hmf g')
    · simp [step, hp] at h

theorem inv_runFrom {s₀ s : Component} {t : List Event}
    (hs : Inv s₀) (h : runFrom s₀ t = some s) : Inv s := by
  induction t generalizing s₀ with
  | nil => simp [runFrom] at h; exact h ▸ hs
  | cons e t ih =>
    simp only [runFrom] at h
    cases hstep : step s₀ e with
    | none => rw [hstep] at h; exact Option.noConfusion h
    | some s₁ =>
      rw [hstep] at h
      exact ih (inv_step hs hstep) h

theorem inv_run {t : List Event} {s : Component} (h : run t = some s) : Inv s :=
  inv_runFrom inv_initState h

theorem runFrom_append (s : Component) (t₁ t₂ : List Event) :
    runFrom s (t₁ ++ t₂) = (runFrom s t₁).bind fun s' => runFrom s' t₂ := by
  induction t₁ generalizing s with
  | nil => simp [runFrom]
  | cons e t ih =>
    simp only [List.cons_append, runFrom]
    cases step s e with
    | none => rfl
    | some s₁ => exact ih s₁

/-- Stepping on any event never turns a non-pending request back into a
pending one, except for the fresh request issued by a trigger advance. -/
theorem step_no_new_pending {s s' : Component} {e : Event}
    (hnp : ∀ g : Nat, s.reqs[g]? ≠ some ReqStatus.pending)
    (hne : e ≠ Event.advance)
    (h : step s e = some s') :
    (∀ g : Nat, s'.reqs[g]? ≠ some ReqStatus.pending) ∧ s'.joke = s.joke := by
  cases e with
  | advance => exact absurd rfl hne
  | unmount =>
    by_cases hm : s.mounted = true
    · simp only [step, hm, if_true, Option.some.injEq] at h
      subst h
      exact ⟨fun g => cancelAt_not_pending s.reqs s.gen g (hnp g), rfl⟩
    · simp [step, hm] at h
  | settleSuccess g d =>
    by_cases hp : s.reqs[g]? = some ReqStatus.pending
    · exact absurd hp (hnp g)
    · simp [step, hp] at h
  | settleNetworkError g =>
    by_cases hp : s.reqs[g]? = some ReqStatus.pending
    · exact absurd hp (hnp g)
    · simp [step, hp] at h
  | settleCancel g =>
    by_cases hp : s.reqs[g]? = some ReqStatus.cancelled
    · simp only [step, hp, if_true, Option.some.injEq] at h
      subst h
      exact ⟨fun g' => set_settled_not_pending s.reqs g g' (hnp g'), rfl⟩
    · simp [step, hp] at h

/-- Once no request is pending, any run containing no trigger advance
leaves the joke text untouched (and issues no new request). -/
theorem runFrom_noAdvance {s s' : Component} {t : List Event}
    (hnp : ∀ g : Nat, s.reqs[g]? ≠ some ReqStatus.pending)
    (hna : Event.advance ∉ t)
    (h : runFrom s t = some s') :
    s'.joke = s.joke ∧ ∀ g : Nat, s'.reqs[g]? ≠ some ReqStatus.pending := by
  induction t generalizing s with
  | nil =>
    simp only [runFrom, Option.some.injEq] at h
    exact h ▸ ⟨rfl, hnp⟩
  | cons e t ih =>
    simp only [runFrom] at h
    cases hstep : step s e with
    | none => rw [hstep] at h; exact Option.noConfusion h
    | some s₁ =>
      rw [hstep] at h
      have hne : e ≠ Event.advance := fun heq => hna (heq ▸ List.mem_cons_self e t)
      have hna' : Event.advance ∉ t := fun hmem => hna (List.mem_cons_of_mem e hmem)
      obtain ⟨hnp₁, hjoke₁⟩ := step_no_new_pending hnp hne hstep
      obtain ⟨hj, hp⟩ := ih hnp₁ hna' h
      exact ⟨hj.trans hjoke₁, hp⟩

/-- After unmount (liveness ref cleared, nothing pending), every further
run leaves the joke text untouched and the component torn down. -/
theorem runFrom_unmounted {s s' : Component} {t : List Event}
    (hm : s.mounted = false)
    (hcm : s.componentIsMounted = false)
    (hnp : ∀ g : Nat, s.reqs[g]? ≠ some ReqStatus.pending)
    (h : runFrom s t = some s') :
    s'.joke = s.joke ∧ s'.componentIsMounted = false ∧ s'.mounted = false := by
  induction t generalizing s with
  | nil =>
    simp only [runFrom, Option.some.injEq] at h
    exact h ▸ ⟨rfl, hcm, hm⟩
  | cons e t ih =>
    simp only [runFrom] at h
    cases hstep : step s e with
    | none => rw [hstep] at h; exact Option.noConfusion h
    | some s₁ =>
      rw [hstep] at h
      cases e with
      | advance => simp [step, hm] at hstep
      | unmount => simp [step, hm] at hstep
      | settleSuccess g d => simp [step, hnp g] at hstep
      | settleNetworkError g => simp [step, hnp g] at hstep
      | settleCancel g =>
        by_cases hp : s.reqs[g]? = some ReqStatus.cancelled
        · simp only [step, hp, if_true, Option.some.injEq] at hstep
          subst hstep
          have hm₁ : (setSettled { s with log := s.log ++ [LogEntry.info] } g).mounted =
              false := hm
          have hcm₁ :
              (setSettled { s with log := s.log ++ [LogEntry.info] } g).componentIsMounted =
              false := hcm
          have hnp₁ : ∀ g' : Nat,
              (setSettled { s with log := s.log ++ [LogEntry.info] } g).reqs[g']? ≠
                some ReqStatus.pending :=
            fun g' => set_settled_not_pending s.reqs g g' (hnp g')
          obtain ⟨hj, hc, hms⟩ := ih hm₁ hcm₁ hnp₁ h
          exact ⟨hj, hc, hms⟩
        · simp [step, hp] at hstep

/-- `mounted` is never reset: once the component is unmounted, no further
event is an unmount, the liveness ref keeps its value, and the component
stays unmounted. -/
theorem runFrom_not_mounted {s s' : Component} {t : List Event}
    (h : runFrom s t = some s') (hm : s.mounted = false) :
    s'.mounted = false ∧ s'.componentIsMounted = s.componentIsMounted ∧
      Event.unmount ∉ t := by
  induction t generalizing s with
  | nil =>
    simp only [runFrom, Option.some.injEq] at h
    exact h ▸ ⟨hm, rfl, by simp⟩
  | cons e t ih =>
    simp only [runFrom] at h
    cases hstep : step s e with
    | none => rw [hstep] at h; exact Option.noConfusion h
    | some s₁ =>
      rw [hstep] at h
      cases e with
      | advance => simp [step, hm] at hstep
      | unmount => simp [step, hm] at hstep
      | settleSuccess g d =>
        by_cases hp : s.reqs[g]? = some ReqStatus.pending
        · simp only [step, hp, if_true, Option.some.injEq] at hstep
          subst hstep
          obtain ⟨h1, h2, h3⟩ := ih h (by
            show (setSettled (onFulfilled s d) g).mounted = false
            rw [setSettled, onFulfilled_mounted] <;> exact hm)
          refine ⟨h1, ?_, by simp [h3]⟩
          rw [h2]
          show (setSettled (onFulfilled s d) g).componentIsMounted =
            s.componentIsMounted
          rw [setSettled]
          exact onFulfilled_componentIsMounted s d
        · simp [step, hp] at hstep
      | settleNetworkError g =>
        by_cases hp : s.reqs[g]? = some ReqStatus.pending
        · simp only [step, hp, if_true, Option.some.injEq] at hstep
          subst hstep
          obtain ⟨h1, h2, h3⟩ := ih h hm
          exact ⟨h1, h2, by simp [h3]⟩
        · simp [step, hp] at hstep
      | settleCancel g =>
        by_cases hp : s.reqs[g]? = some ReqStatus.cancelled
        · simp only [step, hp, if_true, Option.some.injEq] at hstep
          subst hstep
          obtain ⟨h1, h2, h3⟩ := ih h hm
          exact ⟨h1, h2, by simp [h3]⟩
        · simp [step, hp] at hstep

/-- Along any run from a state whose liveness ref is `true` and which is
mounted, the ref is `true` exactly until an unmount occurs, it always
mirrors mountedness, and at most one unmount can ever occur. -/
theorem runFrom_liveness {s₀ s : Component} {t : List Event}
    (h : runFrom s₀ t = some s)
    (hm : s₀.mounted = true) (hcm : s₀.componentIsMounted = true) :
    (s.componentIsMounted = true ↔ Event.unmount ∉ t) ∧
    s.componentIsMounted = s.mounted ∧
    t.count Event.unmount ≤ 1 := by
  induction t generalizing s₀ with
  | nil =>
    simp only [runFrom, Option.some.injEq] at h
    subst h
    exact ⟨by simp [hcm], hcm.trans hm.symm, by simp⟩
  | cons e t ih =>
    simp only [runFrom] at h
    cases hstep : step s₀ e with
    | none => rw [hstep] at h; exact Option.noConfusion h
    | some s₁ =>
      rw [hstep] at h
      cases e with
      | advance =>
        simp only [step, hm, if_true, Option.some.injEq] at hstep
        subst hstep
        obtain ⟨h1, h2, h3⟩ := ih h rfl hcm
        refine ⟨?_, h2, ?_⟩
        · rw [h1]
          simp
        · simpa [List.count_cons] using h3
      | unmount =>
        simp only [step, hm, if_true, Option.some.injEq] at hstep
        subst hstep
        obtain ⟨h1, h2, h3⟩ := runFrom_not_mounted h rfl
        refine ⟨?_, ?_, ?_⟩
        · rw [h2]
          simp
        · rw [h2, h1]
        · have hc0 : t.count Event.unmount = 0 := List.count_eq_zero.mpr h3
          simp [List.count_cons, hc0]
      | settleSuccess g d =>
        by_cases hp : s₀.reqs[g]? = some ReqStatus.pending
        · simp only [step, hp, if_true, Option.some.injEq] at hstep
          subst hstep
          have hm₁ : (setSettled (onFulfilled s₀ d) g).mounted = true := by
            show (setSettled (onFulfilled s₀ d) g).mounted = true
            rw [setSettled]
            exact (onFulfilled_mounted s₀ d).trans hm
          have hcm₁ : (setSettled (onFulfilled s₀ d) g).componentIsMounted = true := by
            rw [setSettled]
            exact (onFulfilled_componentIsMounted s₀ d).trans hcm
          obtain ⟨h1, h2, h3⟩ := ih h hm₁ hcm₁
          refine ⟨by rw [h1]; simp, h2, by simpa [List.count_cons] using h3⟩
        · simp [step, hp] at hstep
      | settleNetworkError g =>
        by_cases hp : s₀.reqs[g]? = some ReqStatus.pending
        · simp only [step, hp, if_true, Option.some.injEq] at hstep
          subst hstep
          have hm₁ :
              (setSettled { s₀ with log := s₀.log ++ [LogEntry.error] } g).mounted =
              true := hm
          have hcm₁ :
              (setSettled
                { s₀ with log := s₀.log ++ [LogEntry.error] } g).componentIsMounted =
              true := hcm
          obtain ⟨h1, h2, h3⟩ := ih h hm₁ hcm₁
          refine ⟨by rw [h1]; simp, h2, by simpa [List.count_cons] using h3⟩
        · simp [step, hp] at hstep
      | settleCancel g =>
        by_cases hp : s₀.reqs[g]? = some ReqStatus.cancelled
        · simp only [step, hp, if_true, Option.some.injEq] at hstep
          subst hstep
          have hm₁ :
              (setSettled { s₀ with log := s₀.log ++ [LogEntry.info] } g).mounted =
              true := hm
          have hcm₁ :
              (setSettled
                { s₀ with log := s₀.log ++ [LogEntry.info] } g).componentIsMounted =
              true := hcm
          obtain ⟨h1, h2, h3⟩ := ih h hm₁ hcm₁
          refine ⟨by rw [h1]; simp, h2, by simpa [List.count_cons] using h3⟩
        · simp [step, hp] at hstep

/-- The joke text can only be changed by the fulfilment of a request:
every other event leaves it untouched. -/
theorem runFrom_joke_without_success {s₀ s : Component} {t : List Event}
    (h : runFrom s₀ t = some s)
    (hns : ∀ (g : Nat) (d : ResponseData), Event.settleSuccess g d ∉ t) :
    s.joke = s₀.joke := by
  induction t generalizing s₀ with
  | nil =>
    simp only [runFrom, Option.some.injEq] at h
    subst h
    rfl
  | cons e t ih =>
    simp only [runFrom] at h
    cases hstep : step s₀ e with
    | none => rw [hstep] at h; exact Option.noConfusion h
    | some s₁ =>
      rw [hstep] at h
      have hns' : ∀ (g : Nat) (d : ResponseData), Event.settleSuccess g d ∉ t :=
        fun g d hmem => hns g d (List.mem_cons_of_mem e hmem)
      have hjoke : s₁.joke = s₀.joke := by
        cases e with
        | advance =>
          by_cases hm : s₀.mounted = true
          · simp only [step, hm, if_true, Option.some.injEq] at hstep
            subst hstep
            rfl
          · simp [step, hm] at hstep
        | unmount =>
          by_cases hm : s₀.mounted = true
          · simp only [step, hm, if_true, Option.some.injEq] at hstep
            subst hstep
            rfl
          · simp [step, hm] at hstep
        | settleSuccess g d => exact absurd (List.mem_cons_self _ _) (hns g d)
        | settleNetworkError g =>
          by_cases hp : s₀.reqs[g]? = some ReqStatus.pending
          · simp only [step, hp, if_true, Option.some.injEq] at hstep
            subst hstep
            rfl
          · simp [step, hp] at hstep
        | settleCancel g =>
          by_cases hp : s₀.reqs[g]? = some ReqStatus.cancelled
          · simp only [step, hp, if_true, Option.some.injEq] at hstep
            subst hstep
            rfl
          · simp [step, hp] at hstep
      exact (ih h hns').trans hjoke

theorem onFulfilled_joke_of_some {s : Component} {d : ResponseData} {v : JokeVal}
    (hcm : s.componentIsMounted = true) (hd : d.value = some v) :
    (onFulfilled s d).joke = v.joke := by
  simp [onFulfilled, tryBody, hcm, hd]

/-- Fulfilment of a request with a well-formed body, from any reachable
state: the joke text is replaced by the body's joke, the fulfilled request
is the current generation's (a superseded one cannot fulfil: its token is
cancelled), and afterwards nothing is pending. -/
theorem step_settleSuccess_commits {s s' : Component} {g : Nat}
    {d : ResponseData} {v : JokeVal}
    (hs : Inv s) (hd : d.value = some v)
    (hstep : step s (Event.settleSuccess g d) = some s') :
    s'.joke = v.joke ∧ (∀ g' : Nat, s'.reqs[g']? ≠ some ReqStatus.pending) ∧
      g = s.gen := by
  by_cases hp : s.reqs[g]? = some ReqStatus.pending
  · simp only [step, hp, if_true, Option.some.injEq] at hstep
    subst hstep
    have hcm : s.componentIsMounted = true := pending_componentIsMounted hs hp
    have hgen : g = s.gen := pending_eq_gen hs hp
    refine ⟨?_, ?_, hgen⟩
    · show (onFulfilled s d).joke = v.joke
      exact onFulfilled_joke_of_some hcm hd
    · intro g'
      show ((onFulfilled s d).reqs.set g ReqStatus.settled)[g']? ≠
        some ReqStatus.pending
      rw [onFulfilled_reqs]
      by_cases hgg : g' = g
      · subst hgg
        have hlt : g' < s.reqs.length := (List.getElem?_eq_some.mp hp).1
        rw [List.getElem?_set_self hlt]
        simp
      · rw [List.getElem?_set_ne (fun hgg2 => hgg hgg2.symm)]
        intro hp'
        exact hgg ((pending_eq_gen hs hp').trans hgen.symm)
  · simp [step, hp] at hstep

/-- C1: for every sequence of trigger advances, once the last advance's
request fulfils (with body `d` carrying joke `v`), the displayed joke text
equals that result no matter how the remaining events are ordered — no
superseded request can overwrite it (indeed only the current generation's
request can fulfil at all). -/
theorem lastAdvanceWins (t₁ t₂ : List Event) (g : Nat) (d : ResponseData)
    (v : JokeVal) (s : Component)
    (hd : d.value = some v)
    (hna : Event.advance ∉ t₂)
    (hrun : run (t₁ ++ Event.settleSuccess g d :: t₂) = some s) :
    s.joke = v.joke ∧ ∀ s₁ : Component, run t₁ = some s₁ → g = s₁.gen := by
  unfold run at hrun
  rw [runFrom_append] at hrun
  cases h₁ : runFrom initState t₁ with
  | none => rw [h₁] at hrun; exact Option.noConfusion hrun
  | some s₁ =>
    rw [h₁, Option.some_bind] at hrun
    simp only [runFrom] at hrun
    cases hstep : step s₁ (Event.settleSuccess g d) with
    | none => rw [hstep] at hrun; exact Option.noConfusion hrun
    | some s₂ =>
      rw [hstep] at hrun
      have hinv : Inv s₁ := inv_runFrom inv_initState h₁
      obtain ⟨hj, hnp, hgen⟩ := step_settleSuccess_commits hinv hd hstep
      obtain ⟨hj2, _⟩ := runFrom_noAdvance hnp hna hrun
      refine ⟨hj2.trans hj, ?_⟩
      intro s₁' h₁'
      unfold run at h₁'
      rw [h₁] at h₁'
      cases h₁'
      exact hgen

theorem lastAdvanceWins_witness :
    run [Event.advance, Event.settleSuccess 1 ⟨some ⟨"Y"⟩⟩, Event.settleCancel 0] =
      some { joke := "Y", componentIsMounted := true, mounted := true, more := true,
             gen := 1, reqs := [ReqStatus.settled, ReqStatus.settled],
             log := [LogEntry.info] } ∧
    ({ joke := "Y", componentIsMounted := true, mounted := true, more := true,
       gen := 1, reqs := [ReqStatus.settled, ReqStatus.settled],
       log := [LogEntry.info] } : Component).joke = "Y" :=
  ⟨by decide,
   (lastAdvanceWins [Event.advance] [Event.settleCancel 0] 1 ⟨some ⟨"Y"⟩⟩ ⟨"Y"⟩
      { joke := "Y", componentIsMounted := true, mounted := true, more := true,
        gen := 1, reqs := [ReqStatus.settled, ReqStatus.settled],
        log := [LogEntry.info] }
      rfl (by decide) (by decide)).1⟩

/-- C2: if unmount occurs while a request is in flight, both effect
cleanups run: the in-flight request is cancelled (nothing is pending any
more) and, whatever happens afterwards and whenever the request settles,
the joke text is never written again and the liveness ref stays false. -/
theorem unmountCancelsAndFreezes (t₁ t₂ : List Event) (s₁ s : Component)
    (h₁ : run (t₁ ++ [Event.unmount]) = some s₁)
    (h : run (t₁ ++ Event.unmount :: t₂) = some s) :
    (∀ g : Nat, s₁.reqs[g]? ≠ some ReqStatus.pending) ∧
    s.joke = s₁.joke ∧ s.componentIsMounted = false := by
  unfold run at h₁ h
  rw [runFrom_append] at h₁ h
  cases h₀ : runFrom initState t₁ with
  | none =>
    rw [h₀] at h₁
    exact Option.noConfusion h₁
  | some s₀ =>
    rw [h₀, Option.some_bind] at h₁ h
    simp only [runFrom] at h₁ h
    cases hstep : step s₀ Event.unmount with
    | none =>
      rw [hstep] at h₁
      exact Option.noConfusion h₁
    | some s₁' =>
      rw [hstep] at h₁ h
      simp only [runFrom, Option.some.injEq] at h₁
      subst h₁
      have hinv₀ : Inv s₀ := inv_runFrom inv_initState h₀
      have hinv₁ : Inv s₁' := inv_step hinv₀ hstep
      by_cases hm : s₀.mounted = true
      · have hshape : s₁'.mounted = false ∧ s₁'.componentIsMounted = false := by
          simp only [step, hm, if_true, Option.some.injEq] at hstep
          subst hstep
          exact ⟨rfl, rfl⟩
        have hnp : ∀ g : Nat, s₁'.reqs[g]? ≠ some ReqStatus.pending :=
          hinv₁.2.2.2 hshape.1
        obtain ⟨hj, hc, _⟩ := runFrom_unmounted hshape.1 hshape.2 hnp h
        exact ⟨hnp, hj, hc⟩
      · simp [step, hm] at hstep

theorem unmountCancelsAndFreezes_witness :
    ({ joke := "", componentIsMounted := false, mounted := false, more := false,
       gen := 0, reqs := [ReqStatus.cancelled], log := [] } :
        Component).reqs[(0 : Nat)]? ≠ some ReqStatus.pending ∧
    ({ joke := "", componentIsMounted := false, mounted := false, more := false,
       gen := 0, reqs := [ReqStatus.settled], log := [LogEntry.info] } :
        Component).joke =
      ({ joke := "", componentIsMounted := false, mounted := false, more := false,
         gen := 0, reqs := [ReqStatus.cancelled], log := [] } : Component).joke ∧
    ({ joke := "", componentIsMounted := false, mounted := false, more := false,
       gen := 0, reqs := [ReqStatus.settled], log := [LogEntry.info] } :
        Component).componentIsMounted = false := by
  have h := unmountCancelsAndFreezes [] [Event.settleCancel 0]
    { joke := "", componentIsMounted := false, mounted := false, more := false,
      gen := 0, reqs := [ReqStatus.cancelled], log := [] }
    { joke := "", componentIsMounted := false, mounted := false, more := false,
      gen := 0, reqs := [ReqStatus.settled], log := [LogEntry.info] }
    (by decide) (by decide)
  exact ⟨h.1 0, h.2.1, h.2.2⟩

theorem cancelAt_getElem?_pending (rs : List ReqStatus) (g : Nat)
    (h : rs[g]? = some ReqStatus.pending) :
    (cancelAt rs g)[g]? = some ReqStatus.cancelled := by
  have hlt : g < rs.length := (List.getElem?_eq_some.mp h).1
  simp [cancelAt, h, List.getElem?_set_self hlt]

/-- C3: for every fulfilled response whose body carries a nested joke value,
if the liveness ref is still true at completion time, the stored joke text
is replaced wholesale by that value. -/
theorem successReplacesJoke (s s' : Component) (g : Nat) (d : ResponseData)
    (v : JokeVal)
    (hd : d.value = some v) (hcm : s.componentIsMounted = true)
    (hstep : step s (Event.settleSuccess g d) = some s') :
    s'.joke = v.joke := by
  by_cases hp : s.reqs[g]? = some ReqStatus.pending
  · simp only [step, hp, if_true, Option.some.injEq] at hstep
    subst hstep
    show (onFulfilled s d).joke = v.joke
    exact onFulfilled_joke_of_some hcm hd
  · simp [step, hp] at hstep

theorem successReplacesJoke_witness :
    run [Event.advance] =
      some { joke := "", componentIsMounted := true, mounted := true, more := true,
             gen := 1, reqs := [ReqStatus.cancelled, ReqStatus.pending], log := [] } ∧
    step { joke := "", componentIsMounted := true, mounted := true, more := true,
           gen := 1, reqs := [ReqStatus.cancelled, ReqStatus.pending], log := [] }
        (Event.settleSuccess 1 ⟨some ⟨"X"⟩⟩) =
      some { joke := "X", componentIsMounted := true, mounted := true, more := true,
             gen := 1, reqs := [ReqStatus.cancelled, ReqStatus.settled], log := [] } ∧
    ({ joke := "X", componentIsMounted := true, mounted := true, more := true,
       gen := 1, reqs := [ReqStatus.cancelled, ReqStatus.settled], log := [] } :
        Component).joke = "X" :=
  ⟨by decide, by decide,
   successReplacesJoke
     { joke := "", componentIsMounted := true, mounted := true, more := true,
       gen := 1, reqs := [ReqStatus.cancelled, ReqStatus.pending], log := [] }
     { joke := "X", componentIsMounted := true, mounted := true, more := true,
       gen := 1, reqs := [ReqStatus.cancelled, ReqStatus.settled], log := [] }
     1 ⟨some ⟨"X"⟩⟩ ⟨"X"⟩ rfl rfl (by decide)⟩

/-- C4: for every non-cancellation failure (transport error, or a fulfilled
body whose nested value is missing so parsing throws), the joke text is
left exactly as it was, a `console.error` entry is recorded, and the
rendered line is unchanged (no error surfaces to the UI); in particular
from the initial state the displayed text stays the empty string. -/
theorem nonCancelFailureKeepsJoke (t : List Event) (s : Component)
    (ht : run t = some s) :
    (∀ (g : Nat) (s' : Component), step s (Event.settleNetworkError g) = some s' →
      s'.joke = s.joke ∧ s'.log = s.log ++ [LogEntry.error] ∧
      renderJokeLine s'.joke = renderJokeLine s.joke) ∧
    (∀ (g : Nat) (d : ResponseData) (s' : Component), d.value = none →
      step s (Event.settleSuccess g d) = some s' →
      s'.joke = s.joke ∧ s'.log = s.log ++ [LogEntry.error] ∧
      renderJokeLine s'.joke = renderJokeLine s.joke) := by
  have hinv : Inv s := inv_run ht
  constructor
  · intro g s' hstep
    by_cases hp : s.reqs[g]? = some ReqStatus.pending
    · simp only [step, hp, if_true, Option.some.injEq] at hstep
      subst hstep
      exact ⟨rfl, rfl, rfl⟩
    · simp [step, hp] at hstep
  · intro g d s' hd hstep
    by_cases hp : s.reqs[g]? = some ReqStatus.pending
    · simp only [step, hp, if_true, Option.some.injEq] at hstep
      subst hstep
      have hcm : s.componentIsMounted = true := pending_componentIsMounted hinv hp
      refine ⟨?_, ?_, ?_⟩ <;>
        simp [setSettled, onFulfilled, tryBody, hcm, hd]
    · simp [step, hp] at hstep

theorem nonCancelFailureKeepsJoke_witness :
    run [] = some initState ∧
    step initState (Event.settleNetworkError 0) =
      some { joke := "", componentIsMounted := true, mounted := true, more := false,
             gen := 0, reqs := [ReqStatus.settled], log := [LogEntry.error] } ∧
    ({ joke := "", componentIsMounted := true, mounted := true, more := false,
       gen := 0, reqs := [ReqStatus.settled], log := [LogEntry.error] } :
        Component).joke = "" ∧
    ({ joke := "", componentIsMounted := true, mounted := true, more := false,
       gen := 0, reqs := [ReqStatus.settled], log := [LogEntry.error] } :
        Component).log = [LogEntry.error] := by
  have h := (nonCancelFailureKeepsJoke [] initState rfl).1 0
    { joke := "", componentIsMounted := true, mounted := true, more := false,
      gen := 0, reqs := [ReqStatus.settled], log := [LogEntry.error] } (by decide)
  exact ⟨rfl, by decide, h.1, h.2.1⟩

/-- C5: for every fetch attempt that settles with a cancellation-type
error, the result is discarded silently: the joke text is unchanged, a
`console.info` (not error) entry is recorded, and the rendered line does
not change. -/
theorem cancelDiscardedSilently (s s' : Component) (g : Nat)
    (hstep : step s (Event.settleCancel g) = some s') :
    s'.joke = s.joke ∧ s'.log = s.log ++ [LogEntry.info] ∧
    renderJokeLine s'.joke = renderJokeLine s.joke := by
  by_cases hp : s.reqs[g]? = some ReqStatus.cancelled
  · simp only [step, hp, if_true, Option.some.injEq] at hstep
    subst hstep
    exact ⟨rfl, rfl, rfl⟩
  · simp [step, hp] at hstep

theorem cancelDiscardedSilently_witness :
    step { joke := "", componentIsMounted := true, mounted := true, more := true,
           gen := 1, reqs := [ReqStatus.cancelled, ReqStatus.pending], log := [] }
        (Event.settleCancel 0) =
      some { joke := "", componentIsMounted := true, mounted := true, more := true,
             gen := 1, reqs := [ReqStatus.settled, ReqStatus.pending],
             log := [LogEntry.info] } ∧
    ({ joke := "", componentIsMounted := true, mounted := true, more := true,
       gen := 1, reqs := [ReqStatus.settled, ReqStatus.pending],
       log := [LogEntry.info] } : Component).joke = "" ∧
    ({ joke := "", componentIsMounted := true, mounted := true, more := true,
       gen := 1, reqs := [ReqStatus.settled, ReqStatus.pending],
       log := [LogEntry.info] } : Component).log = [LogEntry.info] := by
  have h := cancelDiscardedSilently
    { joke := "", componentIsMounted := true, mounted := true, more := true,
      gen := 1, reqs := [ReqStatus.cancelled, ReqStatus.pending], log := [] }
    { joke := "", componentIsMounted := true, mounted := true, more := true,
      gen := 1, reqs := [ReqStatus.settled, ReqStatus.pending],
      log := [LogEntry.info] }
    0 (by decide)
  exact ⟨by decide, h.1, h.2.1⟩

/-- C6: every trigger advance creates a fresh cancellation token source
(one new pending request, of the new generation) after cancelling the prior
one (a prior pending request becomes cancelled); each generation owns
exactly one request, and at most one non-superseded request is ever in
flight. -/
theorem advanceFreshHandle (t : List Event) (s s' : Component)
    (ht : run t = some s) (hstep : step s Event.advance = some s') :
    s'.gen = s.gen + 1 ∧
    s'.reqs[s'.gen]? = some ReqStatus.pending ∧
    (s.reqs[s.gen]? = some ReqStatus.pending →
      s'.reqs[s.gen]? = some ReqStatus.cancelled) ∧
    s'.reqs.length = s'.gen + 1 ∧
    (∀ g : Nat, g < s'.gen → s'.reqs[g]? ≠ some ReqStatus.pending) := by
  have hinv : Inv s := inv_run ht
  have hinv' : Inv s' := inv_step hinv hstep
  obtain ⟨hcm, hlen, hsup, hum⟩ := hinv
  by_cases hm : s.mounted = true
  · simp only [step, hm, if_true, Option.some.injEq] at hstep
    subst hstep
    have hlc : (cancelAt s.reqs s.gen).length = s.gen + 1 := by
      rw [length_cancelAt, hlen]
    refine ⟨rfl, ?_, ?_, hinv'.2.1, hinv'.2.2.1⟩
    · show (cancelAt s.reqs s.gen ++ [ReqStatus.pending])[s.gen + 1]? =
        some ReqStatus.pending
      rw [List.getElem?_append_right (le_of_eq hlc), hlc]
      simp
    · intro hp
      show (cancelAt s.reqs s.gen ++ [ReqStatus.pending])[s.gen]? =
        some ReqStatus.cancelled
      rw [List.getElem?_append_left (by rw [hlc]; exact Nat.lt_succ_self _)]
      exact cancelAt_getElem?_pending s.reqs s.gen hp
  · simp [step, hm] at hstep

theorem advanceFreshHandle_witness :
    ({ joke := "", componentIsMounted := true, mounted := true, more := true,
       gen := 1, reqs := [ReqStatus.cancelled, ReqStatus.pending], log := [] } :
        Component).gen = initState.gen + 1 ∧
    ({ joke := "", componentIsMounted := true, mounted := true, more := true,
       gen := 1, reqs := [ReqStatus.cancelled, ReqStatus.pending], log := [] } :
        Component).reqs[(1 : Nat)]? = some ReqStatus.pending ∧
    ({ joke := "", componentIsMounted := true, mounted := true, more := true,
       gen := 1, reqs := [ReqStatus.cancelled, ReqStatus.pending], log := [] } :
        Component).reqs[(0 : Nat)]? = some ReqStatus.cancelled ∧
    ({ joke := "", componentIsMounted := true, mounted := true, more := true,
       gen := 1, reqs := [ReqStatus.cancelled, ReqStatus.pending], log := [] } :
        Component).reqs.length =
      ({ joke := "", componentIsMounted := true, mounted := true, more := true,
         gen := 1, reqs := [ReqStatus.cancelled, ReqStatus.pending], log := [] } :
          Component).gen + 1 := by
  have h := advanceFreshHandle [] initState
    { joke := "", componentIsMounted := true, mounted := true, more := true,
      gen := 1, reqs := [ReqStatus.cancelled, ReqStatus.pending], log := [] }
    rfl (by decide)
  exact ⟨h.1, h.2.1, h.2.2.1 (by decide), h.2.2.2.1⟩

/-- C7: the liveness ref is true from activation, mirrors mountedness at
all times, goes false exactly when the (at most one) unmount occurs, and is
never set back to true: no event other than teardown mutates it. -/
theorem livenessFlagLifecycle (t : List Event) (s : Component)
    (ht : run t = some s) :
    (s.componentIsMounted = true ↔ Event.unmount ∉ t) ∧
    s.componentIsMounted = s.mounted ∧
    t.count Event.unmount ≤ 1 :=
  runFrom_liveness ht rfl rfl

theorem livenessFlagLifecycle_witness :
    (({ joke := "", componentIsMounted := false, mounted := false, more := false,
        gen := 0, reqs := [ReqStatus.cancelled], log := [] } :
          Component).componentIsMounted = true ↔
      Event.unmount ∉ [Event.unmount]) ∧
    ({ joke := "", componentIsMounted := false, mounted := false, more := false,
       gen := 0, reqs := [ReqStatus.cancelled], log := [] } :
        Component).componentIsMounted =
      ({ joke := "", componentIsMounted := false, mounted := false, more := false,
         gen := 0, reqs := [ReqStatus.cancelled], log := [] } : Component).mounted ∧
    ([Event.unmount] : List Event).count Event.unmount ≤ 1 :=
  livenessFlagLifecycle [Event.unmount]
    { joke := "", componentIsMounted := false, mounted := false, more := false,
      gen := 0, reqs := [ReqStatus.cancelled], log := [] }
    (by decide)

/-- C8: a fetch is issued on initial activation itself: right after `App`
mounts the component with the initial trigger `more = false`, before any
advance, the `[more]` effect has already run once and one request
(generation 0) is in flight. -/
theorem fetchOnMount :
    run [] = some initState ∧ initState.gen = 0 ∧
    initState.reqs = [ReqStatus.pending] ∧ initState.more = false :=
  ⟨rfl, rfl, rfl, rfl⟩

/-- C9: for every fulfilled response whose body lacks the nested value
field, the handler terminates normally: the `TypeError` raised by reading
`.joke` off `undefined` (when the liveness ref is true) is absorbed by the
`catch` block, and the stored joke text is unchanged. -/
theorem missingValueAbsorbed (s s' : Component) (g : Nat) (d : ResponseData)
    (hd : d.value = none)
    (hstep : step s (Event.settleSuccess g d) = some s') :
    tryBody true d = Except.error JsError.typeError ∧ s'.joke = s.joke := by
  refine ⟨by simp [tryBody, hd], ?_⟩
  by_cases hp : s.reqs[g]? = some ReqStatus.pending
  · simp only [step, hp, if_true, Option.some.injEq] at hstep
    subst hstep
    show (onFulfilled s d).joke = s.joke
    unfold onFulfilled
    cases hcm : s.componentIsMounted <;> simp [tryBody, hd, hcm]
  · simp [step, hp] at hstep

theorem missingValueAbsorbed_witness :
    step { joke := "", componentIsMounted := true, mounted := true, more := true,
           gen := 1, reqs := [ReqStatus.cancelled, ReqStatus.pending], log := [] }
        (Event.settleSuccess 1 ⟨none⟩) =
      some { joke := "", componentIsMounted := true, mounted := true, more := true,
             gen := 1, reqs := [ReqStatus.cancelled, ReqStatus.settled],
             log := [LogEntry.error] } ∧
    tryBody true ⟨none⟩ = Except.error JsError.typeError ∧
    ({ joke := "", componentIsMounted := true, mounted := true, more := true,
       gen := 1, reqs := [ReqStatus.cancelled, ReqStatus.settled],
       log := [LogEntry.error] } : Component).joke = "" := by
  have h := missingValueAbsorbed
    { joke := "", componentIsMounted := true, mounted := true, more := true,
      gen := 1, reqs := [ReqStatus.cancelled, ReqStatus.pending], log := [] }
    { joke := "", componentIsMounted := true, mounted := true, more := true,
      gen := 1, reqs := [ReqStatus.cancelled, ReqStatus.settled],
      log := [LogEntry.error] }
    1 ⟨none⟩ rfl (by decide)
  exact ⟨by decide, h.1, h.2⟩

/-- C10: the rendered joke line is always the stored joke text wrapped in
literal double-quote characters, and before any fulfilled fetch the stored
text is still empty, so the line is exactly two quote characters. -/
theorem renderWrapsJoke (t : List Event) (s : Component)
    (ht : run t = some s) :
    (renderJokeLine s.joke).data = '"' :: (s.joke.data ++ ['"']) ∧
    ((∀ (g : Nat) (d : ResponseData), Event.settleSuccess g d ∉ t) →
      s.joke = "" ∧ (renderJokeLine s.joke).data = ['"', '"']) := by
  have hq : ∀ j : String, (renderJokeLine j).data = '"' :: (j.data ++ ['"']) := by
    intro j
    show (("\"" ++ j) ++ "\"").data = '"' :: (j.data ++ ['"'])
    rw [String.data_append, String.data_append]
    simp
  refine ⟨hq s.joke, ?_⟩
  intro hns
  have hj : s.joke = initState.joke := runFrom_joke_without_success ht hns
  refine ⟨hj, ?_⟩
  rw [hj]
  exact hq ""

theorem renderWrapsJoke_witness :
    ({ joke := "", componentIsMounted := true, mounted := true, more := true,
       gen := 1, reqs := [ReqStatus.cancelled, ReqStatus.settled],
       log := [LogEntry.error] } : Component).joke = "" ∧
    (renderJokeLine
      ({ joke := "", componentIsMounted := true, mounted := true, more := true,
         gen := 1, reqs := [ReqStatus.cancelled, ReqStatus.settled],
         log := [LogEntry.error] } : Component).joke).data = ['"', '"'] ∧
    (renderJokeLine
      ({ joke := "", componentIsMounted := true, mounted := true, more := true,
         gen := 1, reqs := [ReqStatus.cancelled, ReqStatus.settled],
         log := [LogEntry.error] } : Component).joke).data =
      '"' :: (("" : String).data ++ ['"']) := by
  have h := renderWrapsJoke [Event.advance, Event.settleNetworkError 1]
    { joke := "", componentIsMounted := true, mounted := true, more := true,
      gen := 1, reqs := [ReqStatus.cancelled, ReqStatus.settled],
      log := [LogEntry.error] }
    (by decide)
  have h2 := h.2 (by intro g d; simp)
  exact ⟨h2.1, h2.2, h.1⟩

end RandomJoke
